import Mathlib

/-!
Shallow embedding of `src/main.py` (Image-Subject-Resizing): the image
normalizer `resize_and_center_image` (lines 21-115) and the batch driver
`process_directory` (lines 117-160), together with spec-side variants used
to compare the implementation against its natural-language specification.

Conventions: filenames and filesystem paths are lists of characters
(`Str`); pixel channels are `Nat` in [0, 255]; Python's float expression
`int((h / w) * 485)` is modelled as the exact natural division
`h * 485 / w` (float division modelled exactly; `int` truncates toward
zero, which is floor on nonnegative values); PIL's alpha compositing onto
an opaque white backdrop is modelled with the standard over formula on
integers.
-/

abbrev Str := List Char

/-- One RGBA pixel, channels in [0, 255] (line 26 converts the decoded
image to RGBA). -/
structure RGBA where
  r : Nat
  g : Nat
  b : Nat
  a : Nat
  deriving DecidableEq, Repr

/-- A decoded image: rows of pixels (PIL images are rectangular grids). -/
structure Img where
  rows : List (List RGBA)
  deriving DecidableEq, Repr

def widthOf (img : Img) : Nat :=
  match img.rows with
  | [] => 0
  | row :: _ => row.length

def heightOf (img : Img) : Nat := img.rows.length

/-- Pixel lookup at row `y`, column `x`. -/
def getPixel (img : Img) (y x : Nat) : Option RGBA :=
  (img.rows[y]?).bind (fun row => row[x]?)

/-- Alpha compositing of one source pixel over opaque white (lines 30-33,
`Image.alpha_composite(bg, img)` with a solid white `bg`):
out = src·a/255 + 255·(255-a)/255, fully opaque result. -/
def compositeWhite (p : RGBA) : RGBA :=
  { r := (p.r * p.a + 255 * (255 - p.a)) / 255
    g := (p.g * p.a + 255 * (255 - p.a)) / 255
    b := (p.b * p.a + 255 * (255 - p.a)) / 255
    a := 255 }

/-- The white-composited buffer `comp` of line 33. -/
def compImg (img : Img) : Img :=
  ⟨img.rows.map (fun row => row.map compositeWhite)⟩

/-- Near-white test on an (already composited) pixel, line 41:
`(r < 250) | (g < 250) | (b < 250)`. -/
def isContentPlain (p : RGBA) : Bool :=
  p.r < 250 || p.g < 250 || p.b < 250

/-- Row-major positions (y, x) of the content pixels of an image
(line 42, `np.where(non_white.T)` yields row-major coordinates). -/
def contentCellsPlain (img : Img) : List (Nat × Nat) :=
  img.rows.enum.flatMap (fun yrow =>
    yrow.2.enum.filterMap (fun xp =>
      if isContentPlain xp.2 then some (yrow.1, xp.1) else none))

/-- Content positions of the source image: the threshold of lines 37-42 is
evaluated on the white-composited buffer `comp`, not on `img`. -/
def contentCells (img : Img) : List (Nat × Nat) :=
  contentCellsPlain (compImg img)

/-- `np.min` over a nonempty coordinate list (0 on `[]`, unused). -/
def minL : List Nat → Nat
  | [] => 0
  | x :: xs => xs.foldl Nat.min x

/-- `np.max` over a nonempty coordinate list (0 on `[]`, unused). -/
def maxL : List Nat → Nat
  | [] => 0
  | x :: xs => xs.foldl Nat.max x

def margin : Nat := 5

/-- Content bounding box expanded by the 5 px margin and clamped to the
image (lines 52-63), as (x0, y0, x1, y1) with exclusive x1/y1; `none` when
no content pixel exists (line 45). `max(0, min_x - margin)` is Nat
subtraction, which already floors at 0. -/
def expandedBbox (img : Img) : Option (Nat × Nat × Nat × Nat) :=
  match contentCells img with
  | [] => none
  | cell :: cells =>
      let ys := (cell :: cells).map Prod.fst
      let xs := (cell :: cells).map Prod.snd
      let min_y := minL ys
      let min_x := minL xs
      let max_y := maxL ys
      let max_x := maxL xs
      let min_x2 := min_x - margin
      let min_y2 := min_y - margin
      let max_x2 := min (widthOf img - 1) (max_x + margin)
      let max_y2 := min (heightOf img - 1) (max_y + margin)
      some (min_x2, min_y2, max_x2 + 1, max_y2 + 1)

/-- PIL `img.crop((x0, y0, x1, y1))` for an in-bounds box (line 73). -/
def cropImg (img : Img) (x0 y0 x1 y1 : Nat) : Img :=
  ⟨((img.rows.drop y0).take (y1 - y0)).map
    (fun row => (row.drop x0).take (x1 - x0))⟩

/-- The buffer cropped at line 73: the ORIGINAL decoded image `img`. -/
def croppedBuffer (img : Img) : Option Img :=
  match expandedBbox img with
  | none => none
  | some (x0, y0, x1, y1) => some (cropImg img x0 y0 x1 y1)

/-- Modelled from the spec (§4.1 step 6, "Crop the composited image to
this box"): the same crop applied to the white-composited buffer. -/
def croppedCompositedSpec (img : Img) : Option Img :=
  match expandedBbox img with
  | none => none
  | some (x0, y0, x1, y1) => some (cropImg (compImg img) x0 y0 x1 y1)

/-- `img_cropped.size` of line 77: PIL reports a crop's size as
(x1 - x0, y1 - y0). -/
def cropDims (img : Img) : Option (Nat × Nat) :=
  match expandedBbox img with
  | none => none
  | some (x0, y0, x1, y1) => some (x1 - x0, y1 - y0)

/-- Target dimensions, lines 77-83. Python computes `int((h / w) * 485)`
with float division and `int` truncation; modelled as exact floor division
`h * 485 / w`. The source guard `w > h` is `h < w`. -/
def targetDims (w h : Nat) : Nat × Nat :=
  if h < w then (485, h * 485 / w) else (w * 485 / h, 485)

/-- Modelled from the spec (§4.1 step 7): rounding to nearest, halves up. -/
def specRound (num den : Nat) : Nat := (2 * num + den) / (2 * den)

/-- Modelled from the spec (§4.1 step 7): longer side 485, shorter side
`round(shortSide * 485 / longSide)`; square content treated as
width-governed with both sides 485. -/
def targetDimsSpec (w h : Nat) : Nat × Nat :=
  if h < w then (485, specRound (h * 485) w)
  else if w < h then (specRound (w * 485) h, 485)
  else (485, 485)

/-- Paste x offset, line 100. -/
def paste_x (new_w : Nat) : Nat := (500 - new_w) / 2

/-- Paste y offset, line 101. -/
def paste_y (new_h : Nat) : Nat := (500 - new_h) / 2

/-- The review marker of lines 88-91. -/
def marker : Str := "_CHECK_PIXELATION".toList

/-- Python `s.replace(".", "_CHECK_PIXELATION.")`: every dot is replaced,
left to right, and the inserted text is not rescanned. -/
def replDot : Str → Str
  | [] => []
  | c :: cs => if c = '.' then marker ++ '.' :: replDot cs else c :: replDot cs

/-- Flagged destination path, lines 88-91: replace every "." or, when the
path has no dot at all, append the marker. -/
def flagPath (p : Str) : Str :=
  if p.contains '.' then replDot p else p ++ marker

/-- Split a string at its LAST dot: `some (before, after)`, `none` when no
dot occurs. -/
def splitAtLastDot : Str → Option (Str × Str)
  | [] => none
  | c :: cs =>
      match splitAtLastDot cs with
      | some (b, e) => some (c :: b, e)
      | none => if c = '.' then some ([], cs) else none

/-- Modelled from the spec (C3): insert the marker exactly once,
immediately before the file extension; append it when the path has no
extension. -/
def flagPathSpec (p : Str) : Str :=
  match splitAtLastDot p with
  | none => p ++ marker
  | some (b, e) => b ++ marker ++ '.' :: e

/-- `flagged_path` of lines 85-92: `some` rewritten path when the crop is
smaller than 485 on its short side, else `none`. -/
def flagged_path (w h : Nat) (output_path : Str) : Option Str :=
  if min w h < 485 then some (flagPath output_path) else none

/-- `save_path` of line 106. -/
def save_path (w h : Nat) (output_path : Str) : Str :=
  (flagged_path w h output_path).getD output_path

/-- The destination actually saved to for one decoded image
(lines 45-107): `none` when no subject is detected (nothing is written,
line 47), and `none` when a computed target dimension is 0, because
Pillow's `resize` at line 95 then raises ValueError before anything is
written; otherwise the possibly flagged destination of line 106. -/
def savedPath (img : Img) (output_path : Str) : Option Str :=
  match cropDims img with
  | none => none
  | some (w, h) =>
      if (targetDims w h).1 = 0 ∨ (targetDims w h).2 = 0 then none
      else some (save_path w h output_path)

/-- LANCZOS resampling (line 95) modelled at the granularity the claims
use: an image of exactly the requested dimensions, sampled from the
source. -/
def resizeImg (img : Img) (new_w new_h : Nat) : Img :=
  ⟨(List.range new_h).map (fun j =>
    (List.range new_w).map (fun i =>
      (getPixel img (j * heightOf img / new_h) (i * widthOf img / new_w)).getD
        ⟨255, 255, 255, 255⟩))⟩

/-- The mask blend of `canvas.paste(img_resized, (px, py), img_resized)`
(line 102): the source's own alpha blends it over the destination. -/
def pasteBlend (dst src : RGBA) : RGBA :=
  { r := (src.r * src.a + dst.r * (255 - src.a)) / 255
    g := (src.g * src.a + dst.g * (255 - src.a)) / 255
    b := (src.b * src.a + dst.b * (255 - src.a)) / 255
    a := 255 }

/-- The 500×500 white canvas with the resized content pasted at the
centred offsets (lines 99-102). -/
def canvasWith (imgR : Img) (px py : Nat) : Img :=
  ⟨(List.range 500).map (fun y =>
    (List.range 500).map (fun x =>
      if px ≤ x ∧ py ≤ y then
        match getPixel imgR (y - py) (x - px) with
        | some p => pasteBlend ⟨255, 255, 255, 255⟩ p
        | none => ⟨255, 255, 255, 255⟩
      else ⟨255, 255, 255, 255⟩))⟩

/-- The try-block of `resize_and_center_image` (lines 24-111) over an
explicit decode result and a save-success flag; `Except.error` models a
raised Python exception: a failed decode (line 26), the ValueError that
Pillow's `resize` raises at line 95 when a computed target dimension
truncates to 0, or a failed save (line 107). `Bool` is the function's
return value (line 47 returns `False` without raising when no subject is
detected). -/
def tryBody (load : Except Str Img) (saveOk : Bool) (output_path : Str) :
    Except Str Bool :=
  match load with
  | Except.error e => Except.error e
  | Except.ok img =>
      match cropDims img with
      | none => Except.ok false
      | some (w, h) =>
          if (targetDims w h).1 = 0 ∨ (targetDims w h).2 = 0 then
            Except.error ("resize".toList)
          else if saveOk then Except.ok true
          else Except.error ("save".toList)

/-- `resize_and_center_image` (lines 21-115): any exception raised in the
body is caught and turned into the return value `False` (lines 113-115). -/
def resize_and_center_image (load : Except Str Img) (saveOk : Bool)
    (output_path : Str) : Bool :=
  match tryBody load saveOk output_path with
  | Except.ok b => b
  | Except.error _ => false

/-- Characters lowered as Python `str.lower` does on ASCII. -/
def lowerStr (s : Str) : Str := s.map Char.toLower

/-- The suffix allow-list of line 125. -/
def allowList : List Str :=
  ["png".toList, "jpg".toList, "jpeg".toList, "webp".toList, "gif".toList]

/-- Line 125: `f.lower().endswith(("png", "jpg", "jpeg", "webp", "gif"))`
is a suffix test on the lowercased NAME, not an extension test. -/
def eligible (f : Str) : Bool :=
  allowList.any (fun s => s.isSuffixOf (lowerStr f))

/-- Line 124: the filtered directory listing. -/
def eligibleFiles (listing : List Str) : List Str := listing.filter eligible

/-- The `os.path.splitext` extension (without its dot): the part after the
last dot, provided some non-dot character precedes that dot. -/
def extOf (f : Str) : Option Str :=
  match splitAtLastDot f with
  | none => none
  | some (b, e) => if b.any (fun c => c ≠ '.') then some e else none

/-- Modelled from the spec (C2): eligibility by case-insensitive membership
of the file extension in the allow-list. -/
def eligibleSpec (f : Str) : Bool :=
  match extOf f with
  | none => false
  | some e => allowList.contains (lowerStr e)

/-- `os.path.splitext(filename)[0]` of line 140. -/
def splitextStem (f : Str) : Str :=
  match splitAtLastDot f with
  | none => f
  | some (b, _) => if b.any (fun c => c ≠ '.') then b else f

/-- `os.path.join` with the POSIX separator (lines 139-140). -/
def joinPath (d f : Str) : Str := d ++ '/' :: f

/-- Line 140: destination `output_folder/<stem>.png`. -/
def outPathFor (outDir f : Str) : Str :=
  joinPath outDir (splitextStem f ++ ".png".toList)

/-- Messages put on the progress queue (lines 130-160). -/
inductive Event where
  | setMax : Nat → Event
  | status : Str → Event
  | progress : Nat → Event
  | done : Event
  deriving DecidableEq, Repr

def progressOf : Event → Option Nat
  | Event.progress n => some n
  | _ => none

def msgFound (n : Nat) : Str :=
  "Found ".toList ++ (Nat.repr n).toList ++ " images to process".toList

def msgProc (i total : Nat) (f : Str) : Str :=
  "Processing ".toList ++ (Nat.repr i).toList ++ "/".toList ++
    (Nat.repr total).toList ++ ": ".toList ++ f

def msgComplete (s total : Nat) : Str :=
  "Complete! Successfully processed ".toList ++ (Nat.repr s).toList ++
    " of ".toList ++ (Nat.repr total).toList ++ " images.".toList

/-- Aggregate outcome of one driver run: the final counters of
lines 135-151, the queue messages in emission order, and the normalizer
invocations (input path, output path) in call order. -/
structure RunResult where
  processed : Nat
  succeeded : Nat
  events : List Event
  calls : List (Str × Str)
  deriving DecidableEq, Repr

/-- The per-file loop of `process_directory` (lines 138-154), parametrised
by the per-call outcome `norm` of `resize_and_center_image` and by whether
a progress queue was supplied (`q`). The loop index `i` and the running
`processed_count` are both carried, as in the source. -/
def driverLoop (norm : Str → Str → Bool) (inDir outDir : Str) (total : Nat)
    (q : Bool) : List Str → Nat → Nat → Nat → RunResult
  | [], _, processed, succeeded =>
      { processed := processed, succeeded := succeeded, events := [], calls := [] }
  | f :: fs, i, processed, succeeded =>
      let input_path := joinPath inDir f
      let output_path := outPathFor outDir f
      let r := norm input_path output_path
      let rest := driverLoop norm inDir outDir total q fs (i + 1) (processed + 1)
        (if r then succeeded + 1 else succeeded)
      { processed := rest.processed
        succeeded := rest.succeeded
        events :=
          (if q then [Event.status (msgProc (i + 1) total f),
                      Event.progress (processed + 1)] else []) ++ rest.events
        calls := (input_path, output_path) :: rest.calls }

/-- `process_directory` (lines 117-160) over an explicit directory listing;
`q` states whether a progress queue was supplied (`progress_queue=None`
otherwise). -/
def process_directory (listing : List Str) (norm : Str → Str → Bool)
    (inDir outDir : Str) (q : Bool) : RunResult :=
  let image_files := eligibleFiles listing
  let total := image_files.length
  let res := driverLoop norm inDir outDir total q image_files 0 0 0
  { processed := res.processed
    succeeded := res.succeeded
    events :=
      (if q then [Event.setMax total, Event.status (msgFound total)] else []) ++
        res.events ++
        (if q then [Event.status (msgComplete res.succeeded total), Event.done]
         else [])
    calls := res.calls }

/-- 1×1 fully opaque black test image. -/
def imgBlack1 : Img := ⟨[[⟨0, 0, 0, 255⟩]]⟩

/-- 1×1 half-transparent black test image. -/
def imgHalf1 : Img := ⟨[[⟨0, 0, 0, 128⟩]]⟩

/-- n×1 fully opaque black test image: every pixel is content. -/
def imgWideN (n : Nat) : Img := ⟨[List.replicate n ⟨0, 0, 0, 255⟩]⟩

/-- 486×1 fully opaque black test image: its content crop is 486×1, whose
target height truncates to int((1/486)·485) = 0. -/
def imgWide : Img := imgWideN 486

theorem replDot_of_not_mem {p : Str} (h : '.' ∉ p) : replDot p = p := by
  induction p with
  | nil => rfl
  | cons c cs ih =>
      have hc : c ≠ '.' := fun hc => h (hc ▸ List.mem_cons_self c cs)
      have hcs : '.' ∉ cs := fun hm => h (List.mem_cons_of_mem c hm)
      simp [replDot, hc, ih hcs]

theorem replDot_append_split {b e : Str} (hb : '.' ∉ b) (he : '.' ∉ e) :
    replDot (b ++ '.' :: e) = b ++ marker ++ '.' :: e := by
  induction b with
  | nil => simp [replDot, replDot_of_not_mem he]
  | cons c cs ih =>
      have hc : c ≠ '.' := fun hc => hb (hc ▸ List.mem_cons_self c cs)
      have hcs : '.' ∉ cs := fun hm => hb (List.mem_cons_of_mem c hm)
      simp [replDot, hc, ih hcs]

theorem splitAtLastDot_of_not_mem {p : Str} (h : '.' ∉ p) :
    splitAtLastDot p = none := by
  induction p with
  | nil => rfl
  | cons c cs ih =>
      have hc : c ≠ '.' := fun hc => h (hc ▸ List.mem_cons_self c cs)
      have hcs : '.' ∉ cs := fun hm => h (List.mem_cons_of_mem c hm)
      simp [splitAtLastDot, ih hcs, hc]

theorem splitAtLastDot_append {e : Str} (b : Str) (he : '.' ∉ e) :
    splitAtLastDot (b ++ '.' :: e) = some (b, e) := by
  induction b with
  | nil => simp [splitAtLastDot, splitAtLastDot_of_not_mem he]
  | cons c cs ih => simp [splitAtLastDot, ih]

theorem splitAtLastDot_eq_append {f b e : Str}
    (h : splitAtLastDot f = some (b, e)) : f = b ++ '.' :: e := by
  induction f generalizing b e with
  | nil => simp [splitAtLastDot] at h
  | cons c cs ih =>
      rw [splitAtLastDot] at h
      rcases hs : splitAtLastDot cs with _ | ⟨b', e'⟩
      · rw [hs] at h
        by_cases hc : c = '.'
        · simp [hc] at h
          simp [← h.1, ← h.2, hc]
        · simp [hc] at h
      · rw [hs] at h
        simp at h
        rw [← h.1, ← h.2]
        simpa using congrArg (fun l => c :: l) (ih hs)

theorem count_one_decomp (p : Str) (h : p.count '.' = 1) :
    ∃ b e, p = b ++ '.' :: e ∧ '.' ∉ b ∧ '.' ∉ e := by
  induction p with
  | nil => simp [List.count_nil] at h
  | cons c cs ih =>
      rw [List.count_cons] at h
      by_cases hc : c = '.'
      · subst hc
        simp at h
        exact ⟨[], cs, rfl, by simp, List.count_eq_zero.mp h⟩
      · have hbe : (c == '.') = false := by simp [hc]
        rw [hbe] at h
        simp at h
        obtain ⟨b, e, rfl, hb, he⟩ := ih h
        refine ⟨c :: b, e, rfl, ?_, he⟩
        intro hm
        rcases List.mem_cons.mp hm with hm | hm
        · exact hc hm.symm
        · exact hb hm

theorem contains_iff_mem (p : Str) (c : Char) : p.contains c = true ↔ c ∈ p := by
  simp [List.contains, List.elem_eq_mem]

/-- Claim C3 is false on the code: for a destination path with more than one
dot, line 89 inserts the `_CHECK_PIXELATION` marker before EVERY dot, not
once before the extension, so the written path differs from the spec's. -/
theorem claim_C3_counterexample :
    flagPath ("out/a.b.png".toList) ≠ flagPathSpec ("out/a.b.png".toList) := by
  decide

/-- Claim C3, amended: for every flagged outcome whose destination path
contains at most one dot (as is the case for `outputDir/<stem>.png` when
neither directory nor stem contains a dot), the written path is the
destination path with the marker inserted exactly once immediately before
the extension, and with the marker appended at the end when the path has
no dot; in general the code inserts the marker before every dot of the
path. -/
theorem claim_C3_amended (p : Str) (h : p.count '.' ≤ 1) :
    flagPath p = flagPathSpec p := by
  rcases Nat.lt_or_ge (p.count '.') 1 with h0 | h1
  · have hnm : '.' ∉ p := List.count_eq_zero.mp (by omega)
    have hc : p.contains '.' = false := by
      rw [← Bool.not_eq_true]
      simp [contains_iff_mem, hnm]
    simp [flagPath, flagPathSpec, hc, splitAtLastDot_of_not_mem hnm, hnm]
  · have h1' : p.count '.' = 1 := Nat.le_antisymm h h1
    obtain ⟨b, e, rfl, hb, he⟩ := count_one_decomp p h1'
    have hc : (b ++ '.' :: e).contains '.' = true :=
      (contains_iff_mem _ _).mpr (List.mem_append_right _ (List.mem_cons_self _ _))
    rw [flagPath, if_pos hc, flagPathSpec, splitAtLastDot_append b he,
      replDot_append_split hb he]

/-- Witness for C3's amended theorem at the concrete path `out/stem.png`. -/
theorem claim_C3_witness :
    ("out/stem.png".toList).count '.' ≤ 1 ∧
    flagPath ("out/stem.png".toList) = flagPathSpec ("out/stem.png".toList) :=
  ⟨by decide, claim_C3_amended ("out/stem.png".toList) (by decide)⟩

/-- Claim C2 is false on the code: line 125 tests whether the lowercased
NAME ends with one of "png", "jpg", "jpeg", "webp", "gif", so a file whose
extension is `apng` (not in the allow-list) is still selected by the
driver. -/
theorem claim_C2_counterexample :
    eligibleFiles [ "a.apng".toList ] = [ "a.apng".toList ] ∧
    eligibleSpec ("a.apng".toList) = false :=
  ⟨by decide, by decide⟩

/-- Claim C2, amended: the driver selects exactly those entries whose
lowercased name ends with one of png/jpg/jpeg/webp/gif. Every entry whose
file extension (case-insensitively) is in the allow-list is selected, but
the converse fails: entries without such an extension (e.g. an `.apng`
file, or an extensionless name ending in `png`) are selected too. -/
theorem claim_C2_amended (f : Str) (h : eligibleSpec f = true) :
    eligible f = true := by
  rw [eligibleSpec] at h
  rcases hx : extOf f with _ | e
  · rw [hx] at h
    simp at h
  · rw [hx] at h
    have hmem : lowerStr e ∈ allowList := by
      simpa [List.contains, List.elem_eq_mem] using h
    rcases hs : splitAtLastDot f with _ | ⟨b, e'⟩
    · simp [extOf, hs] at hx
    · simp only [extOf, hs] at hx
      by_cases hb : (b.any (fun c => c ≠ '.')) = true
      · rw [if_pos hb] at hx
        have he' : e' = e := by simpa using hx
        subst he'
        have hf : f = b ++ '.' :: e' := splitAtLastDot_eq_append hs
        have hdot : Char.toLower '.' = '.' := by decide
        have hsuf : (lowerStr e').isSuffixOf (lowerStr f) = true := by
          rw [hf, List.isSuffixOf_iff_suffix]
          refine ⟨lowerStr b ++ ['.'], ?_⟩
          simp [lowerStr, List.map_append, hdot]
        rw [eligible]
        exact List.any_eq_true.mpr ⟨lowerStr e', hmem, hsuf⟩
      · rw [if_neg hb] at hx
        simp at hx

/-- Witness for C2's amended theorem at the concrete filename `a.jpg`. -/
theorem claim_C2_witness :
    eligibleSpec ("a.jpg".toList) = true ∧ eligible ("a.jpg".toList) = true :=
  ⟨by decide, claim_C2_amended ("a.jpg".toList) (by decide)⟩

theorem div485_lt {a b : Nat} (h : a < b) : a * 485 / b < 485 := by
  have hb : 0 < b := Nat.lt_of_le_of_lt (Nat.zero_le a) h
  rw [Nat.div_lt_iff_lt_mul hb]
  calc a * 485 < b * 485 := by
        exact Nat.mul_lt_mul_of_pos_right h (by omega)
    _ = 485 * b := Nat.mul_comm b 485

theorem div485_le {a b : Nat} (hb : 0 < b) (h : a ≤ b) : a * 485 / b ≤ 485 := by
  have h1 : a * 485 ≤ b * 485 := Nat.mul_le_mul_right 485 h
  calc a * 485 / b ≤ b * 485 / b := Nat.div_le_div_right h1
    _ = 485 := Nat.mul_div_cancel_left 485 hb

theorem self_mul_div485 {w : Nat} (hw : 0 < w) : w * 485 / w = 485 :=
  Nat.mul_div_cancel_left 485 hw

theorem targetDims_le (w h : Nat) (hw : 0 < w) (hh : 0 < h) :
    (targetDims w h).1 ≤ 485 ∧ (targetDims w h).2 ≤ 485 := by
  rw [targetDims]
  by_cases hlt : h < w
  · rw [if_pos hlt]
    exact ⟨Nat.le_refl 485, Nat.le_of_lt (div485_lt hlt)⟩
  · rw [if_neg hlt]
    exact ⟨div485_le hh (Nat.le_of_not_lt hlt), Nat.le_refl 485⟩

/-- Claim C4 is false on the code: the shorter target side is computed as
`int((short / long) * 485)`, which truncates, not rounds. For a 3×1 crop
the code yields 161 while round(1·485/3) = 162. -/
theorem claim_C4_counterexample : targetDims 3 1 ≠ targetDimsSpec 3 1 := by
  decide

/-- Claim C4, amended: for every cropped box with positive width w and
height h, the longer computed target side equals 485 and the shorter one
equals `⌊shortSide · 485 / longSide⌋` — truncation toward zero, not
rounding to nearest; when w = h both target dimensions equal 485. -/
theorem claim_C4_amended (w h : Nat) (hw : 0 < w) (hh : 0 < h) :
    max (targetDims w h).1 (targetDims w h).2 = 485 ∧
    min (targetDims w h).1 (targetDims w h).2 = min w h * 485 / max w h := by
  rcases Nat.lt_trichotomy h w with hlt | heq | hgt
  · have ht : targetDims w h = (485, h * 485 / w) := by rw [targetDims, if_pos hlt]
    have hb : h * 485 / w ≤ 485 := Nat.le_of_lt (div485_lt hlt)
    rw [ht]
    refine ⟨Nat.max_eq_left hb, ?_⟩
    rw [Nat.min_eq_right (Nat.le_of_lt hlt), Nat.max_eq_left (Nat.le_of_lt hlt)]
    exact Nat.min_eq_right hb
  · subst heq
    have ht : targetDims h h = (485, 485) := by
      rw [targetDims, if_neg (Nat.lt_irrefl h), self_mul_div485 hw]
    rw [ht]
    refine ⟨Nat.max_self 485, ?_⟩
    simp [self_mul_div485 hw]
  · have ht : targetDims w h = (w * 485 / h, 485) := by
      rw [targetDims, if_neg (by omega)]
    have hb : w * 485 / h ≤ 485 := Nat.le_of_lt (div485_lt hgt)
    rw [ht]
    refine ⟨Nat.max_eq_right hb, ?_⟩
    rw [Nat.min_eq_left (Nat.le_of_lt hgt), Nat.max_eq_right (Nat.le_of_lt hgt)]
    exact Nat.min_eq_left hb

/-- Witness for C4's amended theorem at the concrete crop 3×2. -/
theorem claim_C4_witness :
    max (targetDims 3 2).1 (targetDims 3 2).2 = 485 ∧
    min (targetDims 3 2).1 (targetDims 3 2).2 = min 3 2 * 485 / max 3 2 :=
  claim_C4_amended 3 2 (by decide) (by decide)

/-- Claim C9: for every positive crop size, both target dimensions are at
most 485, so the centred paste offsets of lines 100-101 are at least 7 and
offset plus size is at most 493 on both axes: at least 7 white pixels
remain on every side of the 500×500 canvas. -/
theorem claim_C9 (w h : Nat) (hw : 0 < w) (hh : 0 < h) :
    (targetDims w h).1 ≤ 485 ∧ (targetDims w h).2 ≤ 485 ∧
    7 ≤ paste_x (targetDims w h).1 ∧ 7 ≤ paste_y (targetDims w h).2 ∧
    paste_x (targetDims w h).1 + (targetDims w h).1 ≤ 493 ∧
    paste_y (targetDims w h).2 + (targetDims w h).2 ≤ 493 := by
  obtain ⟨h1, h2⟩ := targetDims_le w h hw hh
  refine ⟨h1, h2, ?_, ?_, ?_, ?_⟩ <;> simp only [paste_x, paste_y] <;> omega

/-- Witness for C9 at the concrete crop 10×10. -/
theorem claim_C9_witness :
    (targetDims 10 10).1 ≤ 485 ∧ (targetDims 10 10).2 ≤ 485 ∧
    7 ≤ paste_x (targetDims 10 10).1 ∧ 7 ≤ paste_y (targetDims 10 10).2 ∧
    paste_x (targetDims 10 10).1 + (targetDims 10 10).1 ≤ 493 ∧
    paste_y (targetDims 10 10).2 + (targetDims 10 10).2 ≤ 493 :=
  claim_C9 10 10 (by decide) (by decide)

/-- Claim C8 is false on the code: for a 1000×999 crop the computed target
dimensions are (485, 484), so a target dimension is below 485, yet
min(1000, 999) ≥ 485 and the outcome is NOT flagged — the two conditions
the claim equates are different. -/
theorem claim_C8_counterexample :
    flagged_path 1000 999 ("o.png".toList) = none ∧
    (targetDims 1000 999).2 < 485 :=
  ⟨by decide, by decide⟩

/-- Claim C8, amended: the outcome is marked for review if and only if
min(cropWidth, cropHeight) < 485. This is NOT equivalent to a computed
target dimension being below 485: with truncation, some target dimension
is below 485 exactly when the crop is non-square. -/
theorem claim_C8_amended (w h : Nat) (p : Str) (hw : 0 < w) (hh : 0 < h) :
    (flagged_path w h p = some (flagPath p) ↔ min w h < 485) ∧
    (((targetDims w h).1 < 485 ∨ (targetDims w h).2 < 485) ↔ w ≠ h) := by
  constructor
  · by_cases hm : min w h < 485
    · simp [flagged_path, hm]
    · simp [flagged_path, hm]
  · rcases Nat.lt_trichotomy h w with hlt | heq | hgt
    · have ht : targetDims w h = (485, h * 485 / w) := by
        rw [targetDims, if_pos hlt]
      rw [ht]
      constructor
      · intro _
        omega
      · intro _
        exact Or.inr (div485_lt hlt)
    · subst heq
      have ht : targetDims h h = (485, 485) := by
        rw [targetDims, if_neg (Nat.lt_irrefl h), self_mul_div485 hw]
      rw [ht]
      constructor
      · intro hd
        rcases hd with hd | hd <;> simp at hd
      · intro hne
        exact absurd rfl hne
    · have ht : targetDims w h = (w * 485 / h, 485) := by
        rw [targetDims, if_neg (by omega)]
      rw [ht]
      constructor
      · intro _
        omega
      · intro _
        exact Or.inl (div485_lt hgt)

/-- Witness for C8's amended theorem at the concrete crop 500×500. -/
theorem claim_C8_witness :
    ((flagged_path 500 500 ("o.png".toList) =
        some (flagPath ("o.png".toList))) ↔ min 500 500 < 485) ∧
    (((targetDims 500 500).1 < 485 ∨ (targetDims 500 500).2 < 485) ↔
      (500 : Nat) ≠ 500) :=
  claim_C8_amended 500 500 ("o.png".toList) (by decide) (by decide)

theorem foldl_min_zero (l : List Nat) : l.foldl Nat.min 0 = 0 := by
  induction l with
  | nil => rfl
  | cons x l ih => simp [List.foldl_cons, Nat.zero_min, ih]

theorem foldl_max_zeros : ∀ (l : List Nat), (∀ x ∈ l, x = 0) →
    l.foldl Nat.max 0 = 0 := by
  intro l
  induction l with
  | nil =>
      intro _
      rfl
  | cons x l ih =>
      intro hx
      rw [List.foldl_cons, hx x (List.mem_cons_self x l)]
      simpa using ih (fun y hy => hx y (List.mem_cons_of_mem x hy))

theorem filterMap_some_map {α β : Type} (f : α → β) (l : List α) :
    l.filterMap (fun a => some (f a)) = l.map f := by
  induction l with
  | nil => rfl
  | cons a l ih => simp [List.filterMap_cons, ih]

theorem foldl_max_range' (n : Nat) :
    ∀ a k, (List.range' k n).foldl Nat.max a =
      if n = 0 then a else max a (k + n - 1) := by
  induction n with
  | zero =>
      intro a k
      simp [List.range']
  | succ n ih =>
      intro a k
      rw [List.range'_succ, List.foldl_cons, ih]
      by_cases hn : n = 0
      · subst hn
        simp
      · rw [if_neg hn, if_neg (Nat.succ_ne_zero n)]
        have h1 : k + 1 + n - 1 = k + n := by omega
        have h2 : k + (n + 1) - 1 = k + n := by omega
        rw [h1, h2, Nat.max_assoc]
        congr 1
        exact Nat.max_eq_right (by omega)

theorem enumFrom_replicate {α : Type} (p : α) :
    ∀ (n k : Nat), List.enumFrom k (List.replicate n p) =
      (List.range' k n).map (fun i => (i, p)) := by
  intro n
  induction n with
  | zero =>
      intro k
      simp [List.replicate, List.range']
  | succ n ih =>
      intro k
      simp [List.replicate_succ, List.enumFrom, List.range'_succ, ih]

theorem contentCells_imgWideN (n : Nat) :
    contentCells (imgWideN n) =
      (List.range' 0 n).map (fun i => ((0 : Nat), i)) := by
  have hc : isContentPlain (compositeWhite ⟨0, 0, 0, 255⟩) = true := by decide
  have hrows : (compImg (imgWideN n)).rows =
      [List.replicate n (compositeWhite ⟨0, 0, 0, 255⟩)] := by
    simp [compImg, imgWideN, List.map_replicate]
  rw [contentCells, contentCellsPlain, hrows]
  rw [show [List.replicate n (compositeWhite ⟨0, 0, 0, 255⟩)].enum =
    [((0 : Nat), List.replicate n (compositeWhite ⟨0, 0, 0, 255⟩))] from rfl]
  simp only [List.flatMap_cons, List.flatMap_nil, List.append_nil]
  rw [show (List.replicate n (compositeWhite ⟨0, 0, 0, 255⟩)).enum =
    List.enumFrom 0 (List.replicate n (compositeWhite ⟨0, 0, 0, 255⟩)) from
    rfl]
  rw [enumFrom_replicate, List.filterMap_map]
  have hfun : ((fun xp : Nat × RGBA =>
      if isContentPlain xp.2 then some (((0 : Nat)), xp.1) else none) ∘
      (fun i => (i, compositeWhite ⟨0, 0, 0, 255⟩))) =
      fun i : Nat => some ((0 : Nat), i) := by
    funext i
    simp [hc]
  rw [hfun]
  exact filterMap_some_map _ _

theorem expandedBbox_imgWideN (m : Nat) :
    expandedBbox (imgWideN (m + 1)) = some (0, 0, m + 1, 1) := by
  have hcc : contentCells (imgWideN (m + 1)) =
      ((0 : Nat), (0 : Nat)) ::
        (List.range' 1 m).map (fun i => ((0 : Nat), i)) := by
    rw [contentCells_imgWideN, List.range'_succ, List.map_cons]
  have hw : widthOf (imgWideN (m + 1)) = m + 1 := by
    simp [widthOf, imgWideN]
  have hh : heightOf (imgWideN (m + 1)) = 1 := by
    simp [heightOf, imgWideN]
  rw [expandedBbox, hcc]
  simp only [List.map_cons, List.map_map, minL, maxL, hw, hh, margin]
  have hys : ((List.range' 1 m).map
      (Prod.fst ∘ fun i => ((0 : Nat), i))).foldl Nat.min 0 = 0 :=
    foldl_min_zero _
  have hys2 : ((List.range' 1 m).map
      (Prod.fst ∘ fun i => ((0 : Nat), i))).foldl Nat.max 0 = 0 := by
    apply foldl_max_zeros
    intro x hx
    rcases List.mem_map.mp hx with ⟨i, _, hi⟩
    simpa using hi.symm
  have hid : (Prod.snd ∘ fun i : Nat => ((0 : Nat), i)) = fun i : Nat => i :=
    rfl
  have hxs : ((List.range' 1 m).map
      (Prod.snd ∘ fun i => ((0 : Nat), i))).foldl Nat.min 0 = 0 :=
    foldl_min_zero _
  have hxs2 : ((List.range' 1 m).map
      (Prod.snd ∘ fun i => ((0 : Nat), i))).foldl Nat.max 0 =
      if m = 0 then 0 else m := by
    rw [hid, List.map_id', foldl_max_range']
    by_cases hm : m = 0
    · rw [if_pos hm, if_pos hm]
    · rw [if_neg hm, if_neg hm, Nat.zero_max]
      omega
  rw [hys, hys2, hxs, hxs2]
  rcases Nat.eq_zero_or_pos m with hm | hm
  · subst hm
    norm_num
  · rw [if_neg (by omega : ¬ m = 0)]
    have h1 : min m (m + 5) = m := Nat.min_eq_left (by omega)
    simp [h1]

theorem cropDims_imgWideN (m : Nat) :
    cropDims (imgWideN (m + 1)) = some (m + 1, 1) := by
  rw [cropDims, expandedBbox_imgWideN]
  simp

theorem cropDims_imgWide : cropDims imgWide = some (486, 1) := by
  exact cropDims_imgWideN 485

/-- Claim C5 is false on the code: the 486×1 all-black image has content
and its expanded crop box is 486×1 with min(486, 1) < 485, yet the target
height truncates to int((1/486)·485) = 0, Pillow's `resize` at line 95
raises ValueError, and the function returns False with no output written —
the failure branch IS reachable for such inputs. -/
theorem claim_C5_counterexample :
    cropDims imgWide = some (486, 1) ∧ min 486 1 < 485 ∧
    savedPath imgWide ("o.png".toList) = none ∧
    resize_and_center_image (Except.ok imgWide) true ("o.png".toList) =
      false := by
  have htd : targetDims 486 1 = (485, 0) := by decide
  refine ⟨cropDims_imgWide, by decide, ?_, ?_⟩
  · simp [savedPath, cropDims_imgWide, htd]
  · simp [resize_and_center_image, tryBody, cropDims_imgWide, htd]

/-- Claim C5, amended: for every decoded image with at least one content
pixel whose expanded crop box has min(width, height) < 485 AND whose
computed target dimensions are both positive, the image is written to the
flagged destination path and (with the write succeeding) the function
returns True. When a target dimension truncates to 0 — crops with aspect
ratio beyond 485:1 — the resize at line 95 raises instead, the exception
is caught, and Failure is returned with no output written. -/
theorem claim_C5_amended (img : Img) (p : Str) (w h : Nat)
    (hd : cropDims img = some (w, h)) (hs : min w h < 485)
    (hz : (targetDims w h).1 ≠ 0 ∧ (targetDims w h).2 ≠ 0) :
    savedPath img p = some (flagPath p) ∧
    resize_and_center_image (Except.ok img) true p = true := by
  have hnz : ¬ ((targetDims w h).1 = 0 ∨ (targetDims w h).2 = 0) := by
    intro hcase
    rcases hcase with hcase | hcase
    · exact hz.1 hcase
    · exact hz.2 hcase
  constructor
  · simp [savedPath, hd, hnz, save_path, flagged_path, hs]
  · simp [resize_and_center_image, tryBody, hd, hnz]

/-- Witness for C5's amended theorem at a concrete 1×1 black image. -/
theorem claim_C5_witness :
    cropDims imgBlack1 = some (1, 1) ∧ min 1 1 < 485 ∧
    ((targetDims 1 1).1 ≠ 0 ∧ (targetDims 1 1).2 ≠ 0) ∧
    (savedPath imgBlack1 ("o.png".toList) = some (flagPath ("o.png".toList)) ∧
      resize_and_center_image (Except.ok imgBlack1) true ("o.png".toList) =
        true) :=
  ⟨by decide, by decide, ⟨by decide, by decide⟩,
    claim_C5_amended imgBlack1 ("o.png".toList) 1 1 (by decide) (by decide)
      ⟨by decide, by decide⟩⟩

/-- Claim C7 is false on the code: line 73 crops the ORIGINAL decoded RGBA
image `img`, not the white-composited buffer `comp`; on a 1×1
half-transparent black image the two crops differ. -/
theorem claim_C7_counterexample :
    croppedBuffer imgHalf1 ≠ croppedCompositedSpec imgHalf1 := by
  decide

/-- Claim C7, amended: the buffer cropped (and then resized and pasted) is
the original decoded RGBA source image; the white-composited image is used
only for content detection. Every pixel of the cropped buffer is the
corresponding pixel of the decoded source, alpha channel included. -/
theorem claim_C7_amended (img : Img) (x0 y0 x1 y1 y x : Nat)
    (hb : expandedBbox img = some (x0, y0, x1, y1))
    (hy : y < y1 - y0) (hx : x < x1 - x0) :
    croppedBuffer img = some (cropImg img x0 y0 x1 y1) ∧
    getPixel (cropImg img x0 y0 x1 y1) y x = getPixel img (y0 + y) (x0 + x) := by
  refine ⟨by simp [croppedBuffer, hb], ?_⟩
  rcases hrow : img.rows[y0 + y]? with _ | row <;>
    simp [getPixel, cropImg, List.getElem?_map, List.getElem?_take_of_lt, hy, hx,
      List.getElem?_drop, hrow]

/-- Witness for C7's amended theorem at a concrete 1×1 image. -/
theorem claim_C7_witness :
    croppedBuffer imgHalf1 = some (cropImg imgHalf1 0 0 1 1) ∧
    getPixel (cropImg imgHalf1 0 0 1 1) 0 0 = getPixel imgHalf1 (0 + 0) (0 + 0) :=
  claim_C7_amended imgHalf1 0 0 1 1 0 0 (by decide) (by decide) (by decide)

theorem countP_not_add {α : Type} (p : α → Bool) (l : List α) :
    l.countP p + l.countP (fun a => !(p a)) = l.length := by
  induction l with
  | nil => simp
  | cons a l ih => cases hp : p a <;> simp [List.countP_cons, hp] <;> omega

theorem driverLoop_processed (norm : Str → Str → Bool) (inDir outDir : Str)
    (total : Nat) (q : Bool) (fs : List Str) :
    ∀ i p s, (driverLoop norm inDir outDir total q fs i p s).processed =
      p + fs.length := by
  induction fs with
  | nil =>
      intro i p s
      simp [driverLoop]
  | cons f fs ih =>
      intro i p s
      simp only [driverLoop, ih, List.length_cons]
      omega

theorem driverLoop_succeeded (norm : Str → Str → Bool) (inDir outDir : Str)
    (total : Nat) (q : Bool) (fs : List Str) :
    ∀ i p s, (driverLoop norm inDir outDir total q fs i p s).succeeded =
      s + fs.countP (fun f => norm (joinPath inDir f) (outPathFor outDir f)) := by
  induction fs with
  | nil =>
      intro i p s
      simp [driverLoop]
  | cons f fs ih =>
      intro i p s
      cases hr : norm (joinPath inDir f) (outPathFor outDir f) <;>
        simp [driverLoop, ih, List.countP_cons, hr] <;> omega

theorem driverLoop_calls (norm : Str → Str → Bool) (inDir outDir : Str)
    (total : Nat) (q : Bool) (fs : List Str) :
    ∀ i p s, (driverLoop norm inDir outDir total q fs i p s).calls =
      fs.map (fun f => (joinPath inDir f, outPathFor outDir f)) := by
  induction fs with
  | nil =>
      intro i p s
      simp [driverLoop]
  | cons f fs ih =>
      intro i p s
      simp [driverLoop, ih]

theorem driverLoop_events_false (norm : Str → Str → Bool) (inDir outDir : Str)
    (total : Nat) (fs : List Str) :
    ∀ i p s, (driverLoop norm inDir outDir total false fs i p s).events = [] := by
  induction fs with
  | nil =>
      intro i p s
      simp [driverLoop]
  | cons f fs ih =>
      intro i p s
      simp [driverLoop, ih]

theorem driverLoop_progress (norm : Str → Str → Bool) (inDir outDir : Str)
    (total : Nat) (fs : List Str) :
    ∀ i p s,
      ((driverLoop norm inDir outDir total true fs i p s).events).filterMap
        progressOf = List.range' (p + 1) fs.length := by
  induction fs with
  | nil =>
      intro i p s
      simp [driverLoop, List.range']
  | cons f fs ih =>
      intro i p s
      simp [driverLoop, ih, progressOf, List.range'_succ]

theorem getLast_status_done (X : List Event) (s : Str) :
    (X ++ [Event.status s, Event.done]).getLast? = some Event.done := by
  rw [show X ++ [Event.status s, Event.done] =
    (X ++ [Event.status s]) ++ [Event.done] by simp]
  exact List.getLast?_concat _

theorem process_directory_processed (listing : List Str)
    (norm : Str → Str → Bool) (inDir outDir : Str) (q : Bool) :
    (process_directory listing norm inDir outDir q).processed =
      (eligibleFiles listing).length := by
  simp [process_directory, driverLoop_processed]

theorem process_directory_succeeded (listing : List Str)
    (norm : Str → Str → Bool) (inDir outDir : Str) (q : Bool) :
    (process_directory listing norm inDir outDir q).succeeded =
      (eligibleFiles listing).countP
        (fun f => norm (joinPath inDir f) (outPathFor outDir f)) := by
  simp [process_directory, driverLoop_succeeded]

theorem process_directory_calls (listing : List Str)
    (norm : Str → Str → Bool) (inDir outDir : Str) (q : Bool) :
    (process_directory listing norm inDir outDir q).calls =
      (eligibleFiles listing).map
        (fun f => (joinPath inDir f, outPathFor outDir f)) := by
  simp [process_directory, driverLoop_calls]

theorem process_directory_done (listing : List Str)
    (norm : Str → Str → Bool) (inDir outDir : Str) :
    (process_directory listing norm inDir outDir true).events.getLast? =
      some Event.done := by
  simp only [process_directory, if_true]
  exact getLast_status_done _ _

theorem process_directory_head (listing : List Str)
    (norm : Str → Str → Bool) (inDir outDir : Str) :
    (process_directory listing norm inDir outDir true).events.head? =
      some (Event.setMax (eligibleFiles listing).length) := by
  simp [process_directory]

theorem process_directory_progress (listing : List Str)
    (norm : Str → Str → Bool) (inDir outDir : Str) :
    (process_directory listing norm inDir outDir true).events.filterMap
      progressOf = List.range' 1 (eligibleFiles listing).length := by
  simp [process_directory, List.filterMap_append, driverLoop_progress,
    progressOf]

/-- Claim C1: over any directory listing with N eligible files of which K
yield a falsy outcome (no subject detected or failure), the driver run
with a queue ends with processed = N and succeeded = N − K, emits exactly
the Progress events 1, 2, ..., N in order, emits SetMax(N) as the very
first event (hence before every Progress event), and emits Done last. -/
theorem claim_C1 (listing : List Str) (norm : Str → Str → Bool)
    (inDir outDir : Str) :
    (process_directory listing norm inDir outDir true).processed =
        (eligibleFiles listing).length ∧
    (process_directory listing norm inDir outDir true).succeeded =
        (eligibleFiles listing).length -
          (eligibleFiles listing).countP
            (fun f => !(norm (joinPath inDir f) (outPathFor outDir f))) ∧
    (process_directory listing norm inDir outDir true).events.filterMap
        progressOf = List.range' 1 (eligibleFiles listing).length ∧
    (process_directory listing norm inDir outDir true).events.head? =
        some (Event.setMax (eligibleFiles listing).length) ∧
    (process_directory listing norm inDir outDir true).events.getLast? =
        some Event.done := by
  refine ⟨process_directory_processed listing norm inDir outDir true, ?_,
    process_directory_progress listing norm inDir outDir,
    process_directory_head listing norm inDir outDir,
    process_directory_done listing norm inDir outDir⟩
  rw [process_directory_succeeded]
  have h1 := countP_not_add
    (fun f => norm (joinPath inDir f) (outPathFor outDir f))
    (eligibleFiles listing)
  omega

/-- Claim C6: a body that raises (decode, filesystem or encoding error)
makes `resize_and_center_image` return False rather than propagate the
exception, and regardless of how many per-file calls fail the driver still
processes every eligible file and emits the final status and Done events. -/
theorem claim_C6 (load : Except Str Img) (saveOk : Bool) (out e : Str)
    (listing : List Str) (norm : Str → Str → Bool) (inDir outDir : Str)
    (herr : tryBody load saveOk out = Except.error e) :
    resize_and_center_image load saveOk out = false ∧
    (process_directory listing norm inDir outDir true).processed =
      (eligibleFiles listing).length ∧
    (process_directory listing norm inDir outDir true).events.getLast? =
      some Event.done := by
  refine ⟨?_, process_directory_processed listing norm inDir outDir true,
    process_directory_done listing norm inDir outDir⟩
  simp [resize_and_center_image, herr]

/-- Witness for C6: a failing decode on one image and a driver run in which
every per-file call fails. -/
theorem claim_C6_witness :
    resize_and_center_image (Except.error ("boom".toList)) true
      ("o.png".toList) = false ∧
    (process_directory [ "a.png".toList ] (fun _ _ => false) ("i".toList)
        ("o".toList) true).processed =
      (eligibleFiles [ "a.png".toList ]).length ∧
    (process_directory [ "a.png".toList ] (fun _ _ => false) ("i".toList)
        ("o".toList) true).events.getLast? = some Event.done :=
  claim_C6 (Except.error ("boom".toList)) true ("o.png".toList)
    ("boom".toList) [ "a.png".toList ] (fun _ _ => false) ("i".toList)
    ("o".toList) rfl

/-- Claim C10: running the driver without a progress queue performs the
same per-file normalizer invocations (hence the same output files) and
reaches the same final processed and success counters as running it with a
queue; the observer affects only event emission (without a queue no events
are emitted at all). -/
theorem claim_C10 (listing : List Str) (norm : Str → Str → Bool)
    (inDir outDir : Str) :
    (process_directory listing norm inDir outDir false).processed =
      (process_directory listing norm inDir outDir true).processed ∧
    (process_directory listing norm inDir outDir false).succeeded =
      (process_directory listing norm inDir outDir true).succeeded ∧
    (process_directory listing norm inDir outDir false).calls =
      (process_directory listing norm inDir outDir true).calls ∧
    (process_directory listing norm inDir outDir false).events = [] := by
  refine ⟨?_, ?_, ?_, ?_⟩
  · rw [process_directory_processed, process_directory_processed]
  · rw [process_directory_succeeded, process_directory_succeeded]
  · rw [process_directory_calls, process_directory_calls]
  · simp [process_directory, driverLoop_events_false]
